import Mathlib

/-!
Verification of `src/app.py`, a two-protocol relay: an HTTP front end that
forwards form submissions as UDP datagrams to a back end that persists them
into a JSON log file.

Modelling conventions:
* Python strings and byte strings are modelled as `List Nat` (Unicode code
  points, resp. byte values).  Every JSON payload the program emits is pure
  ASCII (`json.dumps` defaults to `ensure_ascii=True`), where the UTF-8
  encode/decode layer is the identity embedding, so the code-point level and
  the byte level coincide on the wire.
* `json.dumps` (with its two configurations used by the program: the compact
  default of `socket_client` and `indent=2` of `storage_handler`) is modelled
  by `dumpsWith`; `json.loads` by `loads`, a fuel-indexed recursive-descent
  parser following CPython's `json` scanner (including its handling of
  `\uXXXX` escapes and surrogate pairs, literal `null`/`true`/`false`,
  `NaN`/`Infinity`/`-Infinity`, strict rejection of raw control characters in
  strings, and last-wins duplicate object keys).  JSON numbers are kept as
  their source lexeme: no claim here inspects numeric values.
* The system clock (`str(datetime.now())`) and the file system are passed in
  explicitly: `storage_handler` takes the timestamp string and the current
  log-file state and returns the file operations performed together with the
  resulting state.
-/

namespace App

/-! ## JSON whitespace -/

/-- The JSON whitespace characters: space, tab, line feed, carriage return
(CPython `json.decoder.WHITESPACE`). -/
def isWsChar (c : Nat) : Bool := c = 32 || c = 9 || c = 10 || c = 13

/-- Skip leading JSON whitespace. -/
def skipWs (l : List Nat) : List Nat := l.dropWhile isWsChar

/-- A list consisting only of whitespace characters. -/
def wsOnly (l : List Nat) : Bool := l.all isWsChar

theorem skipWs_nil : skipWs [] = [] := rfl

theorem skipWs_cons_of_ws {c : Nat} (h : isWsChar c = true) (l : List Nat) :
    skipWs (c :: l) = skipWs l := by
  simp [skipWs, List.dropWhile_cons, h]

theorem skipWs_cons_of_not {c : Nat} (h : isWsChar c = false) (l : List Nat) :
    skipWs (c :: l) = c :: l := by
  simp [skipWs, List.dropWhile_cons, h]

theorem skipWs_append {ws : List Nat} (h : wsOnly ws = true) (l : List Nat) :
    skipWs (ws ++ l) = skipWs l := by
  induction ws with
  | nil => rfl
  | cons c cs ih =>
    simp only [wsOnly, List.all_cons, Bool.and_eq_true] at h
    rw [List.cons_append, skipWs_cons_of_ws h.1]
    exact ih (by simp [wsOnly, h.2])

/-! ## Hexadecimal digits -/

/-- Lower-case hexadecimal digit character of a value `k < 16`
(CPython formats `\uXXXX` escapes with `%04x`). -/
def toHexDigit (k : Nat) : Nat := if k < 10 then 48 + k else 87 + k

/-- Value of a hexadecimal digit character (`0-9`, `a-f`, `A-F`), as accepted
by CPython's `_decode_uXXXX` (`int(s, 16)`). -/
def fromHexDigit (c : Nat) : Option Nat :=
  if 48 ≤ c ∧ c ≤ 57 then some (c - 48)
  else if 97 ≤ c ∧ c ≤ 102 then some (c - 87)
  else if 65 ≤ c ∧ c ≤ 70 then some (c - 55)
  else none

/-- The four hex-digit characters of `n < 0x10000`, most significant first. -/
def toHex4 (n : Nat) : List Nat :=
  [toHexDigit (n / 4096 % 16), toHexDigit (n / 256 % 16),
   toHexDigit (n / 16 % 16), toHexDigit (n % 16)]

/-- Value of four hex-digit characters, most significant first. -/
def fromHex4 (a b c d : Nat) : Option Nat :=
  match fromHexDigit a, fromHexDigit b, fromHexDigit c, fromHexDigit d with
  | some x, some y, some z, some w => some (4096 * x + 256 * y + 16 * z + w)
  | _, _, _, _ => none

theorem fromHexDigit_toHexDigit {k : Nat} (h : k < 16) :
    fromHexDigit (toHexDigit k) = some k := by
  rcases Nat.lt_or_ge k 10 with hk | hk
  · rw [toHexDigit, if_pos hk]
    rw [fromHexDigit, if_pos (by omega)]
    exact congrArg some (by omega)
  · rw [toHexDigit, if_neg (by omega)]
    rw [fromHexDigit, if_neg (by omega), if_pos (by omega)]
    exact congrArg some (by omega)

theorem fromHex4_toHex4 {n : Nat} (h : n < 65536) :
    fromHex4 (toHexDigit (n / 4096 % 16)) (toHexDigit (n / 256 % 16))
      (toHexDigit (n / 16 % 16)) (toHexDigit (n % 16)) = some n := by
  rw [fromHex4, fromHexDigit_toHexDigit (by omega), fromHexDigit_toHexDigit (by omega),
    fromHexDigit_toHexDigit (by omega), fromHexDigit_toHexDigit (by omega)]
  exact congrArg some (by omega)

/-! ## Strings: code points, escaping -/

/-- A Unicode scalar value: any code point that is not a surrogate.  Python
`str` values reaching the pipeline are produced by strict UTF-8 decoding
(`bytes.decode`) and by `urllib.parse.unquote_plus`, neither of which can
produce lone surrogates, so submissions are sequences of scalar values. -/
def validScalar (c : Nat) : Bool := c < 55296 || (57344 ≤ c && c ≤ 1114111)

/-- All code points of the string are Unicode scalar values. -/
def validStr (s : List Nat) : Bool := s.all validScalar

/-- `json.dumps` escaping of one character with `ensure_ascii=True`
(CPython `py_encode_basestring_ascii`): `"` and `\` are backslash-escaped,
printable ASCII `0x20..0x7e` is emitted literally, the short escapes
`\b \t \n \f \r` cover their control characters, every other BMP character
becomes `\uXXXX`, and astral characters become a UTF-16 surrogate pair of
`\uXXXX` escapes. -/
def escapeChar (c : Nat) : List Nat :=
  if c = 34 then [92, 34]
  else if c = 92 then [92, 92]
  else if 32 ≤ c ∧ c ≤ 126 then [c]
  else if c = 8 then [92, 98]
  else if c = 9 then [92, 116]
  else if c = 10 then [92, 110]
  else if c = 12 then [92, 102]
  else if c = 13 then [92, 114]
  else if c < 65536 then 92 :: 117 :: toHex4 c
  else (92 :: 117 :: toHex4 (55296 + (c - 65536) / 1024)) ++
       (92 :: 117 :: toHex4 (56320 + (c - 65536) % 1024))

/-- Escaped body of a JSON string literal. -/
def escBody (s : List Nat) : List Nat := (s.map escapeChar).flatten

/-- A JSON string literal: quote, escaped body, quote. -/
def encodeString (s : List Nat) : List Nat := 34 :: escBody s ++ [34]

/-! ## String literal parsing (CPython `py_scanstring`, `strict=True`) -/

/-- Lookahead after a high-surrogate `\uXXXX` escape (CPython checks
`s[end:end + 2] == '\u'` and then decodes four hex digits, raising on a
malformed escape): `pair l` when a further `\uXXXX` escape with value `l`
follows, `badPair` when `\u` follows but its four hex digits are missing or
invalid, `noPair` otherwise. -/
inductive PairLook where
  | noPair : PairLook
  | badPair : PairLook
  | pair : Nat → PairLook

/-- Inspect the input for an immediately following `\uXXXX` escape. -/
def pairLook : List Nat → PairLook
  | 92 :: 117 :: a2 :: b2 :: e5 :: e6 :: _ =>
    match fromHex4 a2 b2 e5 e6 with
    | some l => PairLook.pair l
    | none => PairLook.badPair
  | 92 :: 117 :: _ => PairLook.badPair
  | _ => PairLook.noPair

/-- Parse the body of a JSON string literal (the opening quote already
consumed), returning the decoded string and the input after the closing
quote.  Follows CPython `json.decoder.py_scanstring` with `strict=True`:
raw control characters below `0x20` are rejected; `\uXXXX` escapes are
decoded, a high-surrogate escape immediately followed by a low-surrogate
escape is combined into one astral code point, and an unpaired surrogate
escape is kept as-is. -/
def parseStringBody : List Nat → Option (List Nat × List Nat)
  | [] => none
  | c :: rest =>
    if c = 34 then some ([], rest)
    else if c = 92 then
      match rest with
      | [] => none
      | e :: r =>
        if e = 34 then (parseStringBody r).map (fun p => (34 :: p.1, p.2))
        else if e = 92 then (parseStringBody r).map (fun p => (92 :: p.1, p.2))
        else if e = 47 then (parseStringBody r).map (fun p => (47 :: p.1, p.2))
        else if e = 98 then (parseStringBody r).map (fun p => (8 :: p.1, p.2))
        else if e = 102 then (parseStringBody r).map (fun p => (12 :: p.1, p.2))
        else if e = 110 then (parseStringBody r).map (fun p => (10 :: p.1, p.2))
        else if e = 114 then (parseStringBody r).map (fun p => (13 :: p.1, p.2))
        else if e = 116 then (parseStringBody r).map (fun p => (9 :: p.1, p.2))
        else if e = 117 then
          match r with
          | a :: b :: e3 :: e4 :: r2 =>
            match fromHex4 a b e3 e4 with
            | none => none
            | some h =>
              if 55296 ≤ h ∧ h ≤ 56319 then
                match pairLook r2 with
                | PairLook.pair l =>
                  if 56320 ≤ l ∧ l ≤ 57343 then
                    (parseStringBody (r2.drop 6)).map
                      (fun p => ((65536 + (h - 55296) * 1024 + (l - 56320)) :: p.1, p.2))
                  else (parseStringBody r2).map (fun p => (h :: p.1, p.2))
                | PairLook.badPair => none
                | PairLook.noPair => (parseStringBody r2).map (fun p => (h :: p.1, p.2))
              else (parseStringBody r2).map (fun p => (h :: p.1, p.2))
          | _ => none
        else none
    else if c < 32 then none
    else (parseStringBody rest).map (fun p => (c :: p.1, p.2))
termination_by l => l.length
decreasing_by all_goals simp_all [List.length_drop] <;> omega

/-! ### Step lemmas for `parseStringBody` -/

theorem psb_quote (l : List Nat) : parseStringBody (34 :: l) = some ([], l) := by
  rw [parseStringBody.eq_def]
  simp

theorem psb_lit {c : Nat} (h1 : c ≠ 34) (h2 : c ≠ 92) (h3 : ¬ c < 32) (l : List Nat) :
    parseStringBody (c :: l) = (parseStringBody l).map (fun p => (c :: p.1, p.2)) := by
  rw [parseStringBody.eq_def]
  simp [h1, h2, h3]

theorem psb_esc_quote (l : List Nat) :
    parseStringBody (92 :: 34 :: l) = (parseStringBody l).map (fun p => (34 :: p.1, p.2)) := by
  rw [parseStringBody.eq_def]
  simp

theorem psb_esc_backslash (l : List Nat) :
    parseStringBody (92 :: 92 :: l) = (parseStringBody l).map (fun p => (92 :: p.1, p.2)) := by
  rw [parseStringBody.eq_def]
  simp

theorem psb_esc_b (l : List Nat) :
    parseStringBody (92 :: 98 :: l) = (parseStringBody l).map (fun p => (8 :: p.1, p.2)) := by
  rw [parseStringBody.eq_def]
  simp

theorem psb_esc_t (l : List Nat) :
    parseStringBody (92 :: 116 :: l) = (parseStringBody l).map (fun p => (9 :: p.1, p.2)) := by
  rw [parseStringBody.eq_def]
  simp

theorem psb_esc_n (l : List Nat) :
    parseStringBody (92 :: 110 :: l) = (parseStringBody l).map (fun p => (10 :: p.1, p.2)) := by
  rw [parseStringBody.eq_def]
  simp

theorem psb_esc_f (l : List Nat) :
    parseStringBody (92 :: 102 :: l) = (parseStringBody l).map (fun p => (12 :: p.1, p.2)) := by
  rw [parseStringBody.eq_def]
  simp

theorem psb_esc_r (l : List Nat) :
    parseStringBody (92 :: 114 :: l) = (parseStringBody l).map (fun p => (13 :: p.1, p.2)) := by
  rw [parseStringBody.eq_def]
  simp

theorem psb_u_far {a b e3 e4 h : Nat} (hx : fromHex4 a b e3 e4 = some h)
    (hns : ¬ (55296 ≤ h ∧ h ≤ 56319)) (l : List Nat) :
    parseStringBody (92 :: 117 :: a :: b :: e3 :: e4 :: l)
      = (parseStringBody l).map (fun p => (h :: p.1, p.2)) := by
  rw [parseStringBody.eq_def]
  simp [hx, hns]

theorem psb_u_pair {a b e3 e4 h a2 b2 e5 e6 lo : Nat}
    (hx1 : fromHex4 a b e3 e4 = some h) (hr1 : 55296 ≤ h ∧ h ≤ 56319)
    (hx2 : fromHex4 a2 b2 e5 e6 = some lo) (hr2 : 56320 ≤ lo ∧ lo ≤ 57343) (l : List Nat) :
    parseStringBody (92 :: 117 :: a :: b :: e3 :: e4 :: 92 :: 117 :: a2 :: b2 :: e5 :: e6 :: l)
      = (parseStringBody l).map
          (fun p => ((65536 + (h - 55296) * 1024 + (lo - 56320)) :: p.1, p.2)) := by
  rw [parseStringBody.eq_def]
  simp [pairLook, hx1, hr1.1, hr1.2, hx2, hr2.1, hr2.2]

theorem escBody_cons (c : Nat) (s : List Nat) :
    escBody (c :: s) = escapeChar c ++ escBody s := by
  simp [escBody]

/-- Round-trip for string bodies: parsing the `json.dumps` escaping of a
string of Unicode scalar values recovers the string and the trailing
input. -/
theorem parseStringBody_escBody (s : List Nat) (hs : validStr s = true) (rest : List Nat) :
    parseStringBody (escBody s ++ 34 :: rest) = some (s, rest) := by
  induction s with
  | nil => simpa [escBody] using psb_quote rest
  | cons c s ih =>
    have hsc : validScalar c = true := by
      simp only [validStr, List.all_cons, Bool.and_eq_true] at hs; exact hs.1
    have hs' : validStr s = true := by
      simp only [validStr, List.all_cons, Bool.and_eq_true] at hs; exact hs.2
    have IH := ih hs'
    rw [escBody_cons, List.append_assoc]
    by_cases h34 : c = 34
    · subst h34
      rw [show escapeChar 34 = [92, 34] from rfl]
      simp [psb_esc_quote, IH]
    by_cases h92 : c = 92
    · subst h92
      rw [show escapeChar 92 = [92, 92] from rfl]
      simp [psb_esc_backslash, IH]
    by_cases hpr : 32 ≤ c ∧ c ≤ 126
    · rw [escapeChar, if_neg h34, if_neg h92, if_pos hpr]
      rw [List.cons_append, List.nil_append]
      rw [psb_lit h34 h92 (by omega), IH]
      rfl
    by_cases h8 : c = 8
    · subst h8
      rw [show escapeChar 8 = [92, 98] from rfl]
      simp [psb_esc_b, IH]
    by_cases h9 : c = 9
    · subst h9
      rw [show escapeChar 9 = [92, 116] from rfl]
      simp [psb_esc_t, IH]
    by_cases h10 : c = 10
    · subst h10
      rw [show escapeChar 10 = [92, 110] from rfl]
      simp [psb_esc_n, IH]
    by_cases h12 : c = 12
    · subst h12
      rw [show escapeChar 12 = [92, 102] from rfl]
      simp [psb_esc_f, IH]
    by_cases h13 : c = 13
    · subst h13
      rw [show escapeChar 13 = [92, 114] from rfl]
      simp [psb_esc_r, IH]
    by_cases hbmp : c < 65536
    · have hval : c < 55296 ∨ (57344 ≤ c ∧ c ≤ 1114111) := by
        simp only [validScalar, Bool.or_eq_true, Bool.and_eq_true, decide_eq_true_eq] at hsc
        omega
      rw [escapeChar, if_neg h34, if_neg h92, if_neg hpr, if_neg h8, if_neg h9, if_neg h10,
        if_neg h12, if_neg h13, if_pos hbmp]
      rw [toHex4]
      simp only [List.cons_append, List.nil_append]
      rw [psb_u_far (fromHex4_toHex4 hbmp) (by omega), IH]
      rfl
    · have hval : c ≤ 1114111 := by
        simp only [validScalar, Bool.or_eq_true, Bool.and_eq_true, decide_eq_true_eq] at hsc
        omega
      rw [escapeChar, if_neg h34, if_neg h92, if_neg hpr, if_neg h8, if_neg h9, if_neg h10,
        if_neg h12, if_neg h13, if_neg hbmp]
      rw [toHex4, toHex4]
      simp only [List.cons_append, List.nil_append, List.append_assoc]
      rw [psb_u_pair (fromHex4_toHex4 (by omega)) (by omega)
        (fromHex4_toHex4 (by omega)) (by omega), IH]
      have hc : 65536 + (55296 + (c - 65536) / 1024 - 55296) * 1024 +
          (56320 + (c - 65536) % 1024 - 56320) = c := by omega
      rw [hc]
      rfl

/-! ## JSON number tokens (CPython `json.scanner.NUMBER_RE`) -/

/-- ASCII decimal digit. -/
def isDigit (c : Nat) : Bool := 48 ≤ c && c ≤ 57

/-- Longest prefix of decimal digits. -/
def takeDigits : List Nat → List Nat × List Nat
  | [] => ([], [])
  | c :: rest =>
    if isDigit c then
      let p := takeDigits rest
      (c :: p.1, p.2)
    else ([], c :: rest)

/-- Integer part after the optional minus sign: `0`, or a nonzero digit
followed by digits (the `(?:0|[1-9]\d*)` group of `NUMBER_RE`). -/
def parseIntRest : List Nat → Option (List Nat × List Nat)
  | [] => none
  | c :: rest =>
    if c = 48 then some ([48], rest)
    else if 49 ≤ c ∧ c ≤ 57 then
      let p := takeDigits rest
      some (c :: p.1, p.2)
    else none

/-- Optional fraction group `(\.\d+)?`: empty when it does not match. -/
def parseFracOpt (cs : List Nat) : List Nat × List Nat :=
  match cs with
  | 46 :: c :: rest =>
    if isDigit c then
      let p := takeDigits rest
      (46 :: c :: p.1, p.2)
    else ([], cs)
  | _ => ([], cs)

/-- Optional exponent group `([eE][-+]?\d+)?`: empty when it does not
match. -/
def parseExpOpt (cs : List Nat) : List Nat × List Nat :=
  match cs with
  | [] => ([], cs)
  | e :: rest =>
    if e = 101 ∨ e = 69 then
      match rest with
      | [] => ([], cs)
      | s :: rest2 =>
        if s = 43 ∨ s = 45 then
          match takeDigits rest2 with
          | ([], _) => ([], cs)
          | (ds, r) => (e :: s :: ds, r)
        else
          match takeDigits rest with
          | ([], _) => ([], cs)
          | (ds, r) => (e :: ds, r)
    else ([], cs)

/-- Parse a JSON number token, keeping the matched lexeme (the program's
claims never inspect numeric values, so numbers are carried textually). -/
def parseNumber (cs : List Nat) : Option (List Nat × List Nat) :=
  match cs with
  | 45 :: rest =>
    match parseIntRest rest with
    | none => none
    | some (ip, r1) =>
      let f := parseFracOpt r1
      let e := parseExpOpt f.2
      some (45 :: ip ++ f.1 ++ e.1, e.2)
  | _ =>
    match parseIntRest cs with
    | none => none
    | some (ip, r1) =>
      let f := parseFracOpt r1
      let e := parseExpOpt f.2
      some (ip ++ f.1 ++ e.1, e.2)

/-- Match a literal character sequence, returning the remaining input. -/
def dropLit : List Nat → List Nat → Option (List Nat)
  | [], cs => some cs
  | _ :: _, [] => none
  | x :: xs, c :: cs => if c = x then dropLit xs cs else none

/-! ## The JSON data model -/

/-- JSON values as built by `json.loads` / consumed by `json.dumps`.
Objects are insertion-ordered association lists (Python `dict`); numbers
are kept as their source lexeme. -/
inductive Json where
  | null : Json
  | bool : Bool → Json
  | num : List Nat → Json
  | str : List Nat → Json
  | arr : List Json → Json
  | obj : List (List Nat × Json) → Json

/-- Insertion/overwrite into a Python `dict` modelled as an
insertion-ordered association list: an existing key keeps its position and
receives the new value; a new key is appended at the end. -/
def objInsert (k : List Nat) (v : Json) : List (List Nat × Json) → List (List Nat × Json)
  | [] => [(k, v)]
  | (k2, v2) :: rest => if k2 = k then (k2, v) :: rest else (k2, v2) :: objInsert k v rest

/-- Key lookup in the association list (Python `dict` indexing). -/
def objLookup (k : List Nat) : List (List Nat × Json) → Option Json
  | [] => none
  | (k2, v2) :: rest => if k2 = k then some v2 else objLookup k rest

/-- A number token or one of the non-standard constants `NaN`, `Infinity`,
`-Infinity` accepted by `json.loads` (CPython tries `NUMBER_RE` first,
then the constants). -/
def parseNumberOrConst (cs : List Nat) : Option (Json × List Nat) :=
  match parseNumber cs with
  | some (lex, r) => some (Json.num lex, r)
  | none =>
    match dropLit [78, 97, 78] cs with
    | some r => some (Json.num [78, 97, 78], r)
    | none =>
      match dropLit [73, 110, 102, 105, 110, 105, 116, 121] cs with
      | some r => some (Json.num [73, 110, 102, 105, 110, 105, 116, 121], r)
      | none =>
        match dropLit [45, 73, 110, 102, 105, 110, 105, 116, 121] cs with
        | some r => some (Json.num [45, 73, 110, 102, 105, 110, 105, 116, 121], r)
        | none => none

/-! ## `json.loads` (CPython `json.decoder` / `json.scanner`) -/

mutual

/-- Parse one JSON value (CPython `scan_once`, with surrounding whitespace
skipping as done by its callers).  The fuel bounds the nesting depth; every
recursive call strictly follows at least one consumed structural
character, so `input length + 1` fuel always suffices. -/
def parseValue : Nat → List Nat → Option (Json × List Nat)
  | 0, _ => none
  | Nat.succ f, cs =>
    match skipWs cs with
    | 110 :: 117 :: 108 :: 108 :: rest => some (Json.null, rest)
    | 116 :: 114 :: 117 :: 101 :: rest => some (Json.bool true, rest)
    | 102 :: 97 :: 108 :: 115 :: 101 :: rest => some (Json.bool false, rest)
    | 34 :: rest => (parseStringBody rest).map (fun p => (Json.str p.1, p.2))
    | 123 :: rest =>
      match skipWs rest with
      | 125 :: r2 => some (Json.obj [], r2)
      | r2 =>
        (parseObjMembers f r2).map
          (fun p => (Json.obj (p.1.foldl (fun a m => objInsert m.1 m.2 a) []), p.2))
    | 91 :: rest =>
      match skipWs rest with
      | 93 :: r2 => some (Json.arr [], r2)
      | r2 => (parseArrMembers f r2).map (fun p => (Json.arr p.1, p.2))
    | cs2 => parseNumberOrConst cs2

/-- Parse the members of a non-empty JSON object, starting at the first
key and ending after the closing `}` (CPython `JSONObject`): keys must be
string literals, `:` separates key and value, `,` separates members, and a
trailing comma is rejected. -/
def parseObjMembers : Nat → List Nat → Option (List (List Nat × Json) × List Nat)
  | 0, _ => none
  | Nat.succ f, cs =>
    match skipWs cs with
    | 34 :: r1 =>
      match parseStringBody r1 with
      | none => none
      | some (k, r2) =>
        match skipWs r2 with
        | 58 :: r3 =>
          match parseValue f r3 with
          | none => none
          | some (v, r4) =>
            match skipWs r4 with
            | 44 :: r5 => (parseObjMembers f r5).map (fun p => ((k, v) :: p.1, p.2))
            | 125 :: r5 => some ([(k, v)], r5)
            | _ => none
        | _ => none
    | _ => none

/-- Parse the elements of a non-empty JSON array, ending after the closing
`]` (CPython `JSONArray`); a trailing comma is rejected. -/
def parseArrMembers : Nat → List Nat → Option (List Json × List Nat)
  | 0, _ => none
  | Nat.succ f, cs =>
    match parseValue f cs with
    | none => none
    | some (v, r1) =>
      match skipWs r1 with
      | 44 :: r2 => (parseArrMembers f r2).map (fun p => (v :: p.1, p.2))
      | 93 :: r2 => some ([v], r2)
      | _ => none

end

/-- `json.loads`: parse one value from the whole document, allowing
surrounding whitespace and rejecting any further content ("Extra data"). -/
def loads (bs : List Nat) : Option Json :=
  match parseValue (bs.length + 1) bs with
  | some (v, rest) => if skipWs rest = [] then some v else none
  | none => none

/-! ## `json.dumps` (compact default and `indent=n`) -/

/-- Newline plus indentation emitted inside containers when `indent` is
given; nothing in compact mode. -/
def nlws (ind : Option Nat) (lvl : Nat) : List Nat :=
  match ind with
  | none => []
  | some n => 10 :: List.replicate (lvl * n) 32

/-- What follows the `,` item separator: one space in compact mode (the
default separator `", "`), newline plus indentation when `indent` is given
(separator `","` followed by the next line's indent). -/
def sepws (ind : Option Nat) (lvl : Nat) : List Nat :=
  match ind with
  | none => [32]
  | some n => 10 :: List.replicate (lvl * n) 32

mutual

/-- `json.dumps(value, indent=ind)` at indentation level `lvl`, with the
defaults used by the program: `ensure_ascii=True`, key separator `": "`,
item separator `", "` (compact) or `","` + newline + indent (indented);
an empty container prints as `{}` / `[]` in both modes. -/
def dumpsWith (ind : Option Nat) (lvl : Nat) : Json → List Nat
  | Json.null => [110, 117, 108, 108]
  | Json.bool true => [116, 114, 117, 101]
  | Json.bool false => [102, 97, 108, 115, 101]
  | Json.num lex => lex
  | Json.str s => encodeString s
  | Json.arr [] => [91, 93]
  | Json.arr (x :: xs) =>
    91 :: (nlws ind (lvl + 1) ++ arrEnc ind (lvl + 1) x xs ++ nlws ind lvl ++ [93])
  | Json.obj [] => [123, 125]
  | Json.obj (m :: ms) =>
    123 :: (nlws ind (lvl + 1) ++ membersEnc ind (lvl + 1) m ms ++ nlws ind lvl ++ [125])
termination_by j => sizeOf j

/-- The comma-separated encodings of a non-empty array's elements. -/
def arrEnc (ind : Option Nat) (lvl : Nat) : Json → List Json → List Nat
  | x, [] => dumpsWith ind lvl x
  | x, y :: ys => dumpsWith ind lvl x ++ 44 :: (sepws ind lvl ++ arrEnc ind lvl y ys)
termination_by x xs => sizeOf x + sizeOf xs

/-- The comma-separated `"key": value` encodings of a non-empty object's
members. -/
def membersEnc (ind : Option Nat) (lvl : Nat) :
    (List Nat × Json) → List (List Nat × Json) → List Nat
  | (k, v), [] => encodeString k ++ 58 :: 32 :: dumpsWith ind lvl v
  | (k, v), m2 :: ms =>
    encodeString k ++ 58 :: 32 :: dumpsWith ind lvl v ++
      44 :: (sepws ind lvl ++ membersEnc ind lvl m2 ms)
termination_by m ms => sizeOf m + sizeOf ms

end

/-! ## Well-formedness and the round-trip law -/

/-- Pairwise-distinct object keys. -/
def distinctKeys : List (List Nat × Json) → Bool
  | [] => true
  | (k, _) :: ms => ms.all (fun m => !(decide (m.1 = k))) && distinctKeys ms

mutual

/-- Values for which the round-trip law is proved: strings of Unicode
scalar values, `null`, booleans, and objects of such values with distinct
keys.  (Numbers and arrays never occur in the program's own payloads.) -/
def WFj : Json → Bool
  | Json.null => true
  | Json.bool _ => true
  | Json.num _ => false
  | Json.str s => validStr s
  | Json.arr _ => false
  | Json.obj ms => WFm ms && distinctKeys ms

/-- All members have scalar-valued keys and well-formed values. -/
def WFm : List (List Nat × Json) → Bool
  | [] => true
  | (k, v) :: ms => validStr k && WFj v && WFm ms

end

mutual

/-- Fuel sufficient for `parseValue` to parse the encoding of a value. -/
def fuelV : Json → Nat
  | Json.obj ms => 1 + fuelM ms
  | _ => 1

/-- Fuel sufficient for `parseObjMembers` on the encoding of members. -/
def fuelM : List (List Nat × Json) → Nat
  | [] => 0
  | (_, v) :: ms => 1 + max (fuelV v) (fuelM ms)

end

theorem fuelV_pos (j : Json) : 1 ≤ fuelV j := by
  cases j <;> simp [fuelV]

theorem wsOnly_replicate (n : Nat) : wsOnly (List.replicate n 32) = true := by
  induction n with
  | zero => rfl
  | succ n ih =>
    rw [List.replicate_succ, wsOnly, List.all_cons]
    simp only [Bool.and_eq_true]
    exact ⟨by simp [isWsChar], ih⟩

theorem wsOnly_nlws (ind : Option Nat) (lvl : Nat) : wsOnly (nlws ind lvl) = true := by
  cases ind with
  | none => rfl
  | some n =>
    simp only [nlws, wsOnly, List.all_cons, Bool.and_eq_true]
    exact ⟨by simp [isWsChar], wsOnly_replicate _⟩

theorem wsOnly_sepws (ind : Option Nat) (lvl : Nat) : wsOnly (sepws ind lvl) = true := by
  cases ind with
  | none => rfl
  | some n =>
    simp only [sepws, wsOnly, List.all_cons, Bool.and_eq_true]
    exact ⟨by simp [isWsChar], wsOnly_replicate _⟩

theorem parseValue_ws (ws : List Nat) (h : wsOnly ws = true) (f : Nat) (l : List Nat) :
    parseValue f (ws ++ l) = parseValue f l := by
  cases f with
  | zero => rfl
  | succ f =>
    simp only [parseValue]
    rw [skipWs_append h]

theorem parseObjMembers_ws {ws : List Nat} (h : wsOnly ws = true) (f : Nat) (l : List Nat) :
    parseObjMembers f (ws ++ l) = parseObjMembers f l := by
  cases f with
  | zero => rfl
  | succ f =>
    simp only [parseObjMembers]
    rw [skipWs_append h]

theorem objInsert_absent {k : List Nat} {v : Json} {acc : List (List Nat × Json)}
    (h : ∀ q ∈ acc, q.1 ≠ k) : objInsert k v acc = acc ++ [(k, v)] := by
  induction acc with
  | nil => rfl
  | cons q acc ih =>
    obtain ⟨k2, v2⟩ := q
    simp only [objInsert]
    rw [if_neg (h (k2, v2) (List.mem_cons_self _ _))]
    rw [ih (fun q hq => h q (List.mem_cons_of_mem _ hq))]
    rfl

theorem distinctKeys_cons {k : List Nat} {v : Json} {ms : List (List Nat × Json)}
    (h : distinctKeys ((k, v) :: ms) = true) :
    (∀ m ∈ ms, m.1 ≠ k) ∧ distinctKeys ms = true := by
  simp only [distinctKeys, Bool.and_eq_true, List.all_eq_true, Bool.not_eq_true',
    decide_eq_false_iff_not] at h
  exact h

theorem foldl_objInsert_distinct (ms : List (List Nat × Json)) :
    ∀ acc, (∀ p ∈ ms, ∀ q ∈ acc, q.1 ≠ p.1) → distinctKeys ms = true →
      ms.foldl (fun a m => objInsert m.1 m.2 a) acc = acc ++ ms := by
  induction ms with
  | nil => intro acc _ _; simp
  | cons m ms ih =>
    intro acc hdisj hdk
    obtain ⟨k, v⟩ := m
    obtain ⟨hdk1, hdk2⟩ := distinctKeys_cons hdk
    rw [List.foldl_cons]
    have h1 : objInsert k v acc = acc ++ [(k, v)] :=
      objInsert_absent (fun q hq => hdisj (k, v) (List.mem_cons_self _ _) q hq)
    show ms.foldl (fun a m => objInsert m.1 m.2 a) (objInsert k v acc) = acc ++ (k, v) :: ms
    rw [h1, ih (acc ++ [(k, v)]) ?_ hdk2]
    · simp
    · intro p hp q hq
      rcases List.mem_append.1 hq with hq | hq
      · exact hdisj p (List.mem_cons_of_mem _ hp) q hq
      · have : q = (k, v) := by simpa using hq
        subst this
        exact fun e => hdk1 p hp (e.symm)

theorem foldl_objInsert_nil {ms : List (List Nat × Json)} (hdk : distinctKeys ms = true) :
    ms.foldl (fun a m => objInsert m.1 m.2 a) [] = ms := by
  have := foldl_objInsert_distinct ms [] (by intro p _ q hq; cases hq) hdk
  simpa using this

theorem membersEnc_head (ind : Option Nat) (lvl : Nat) (k : List Nat) (v : Json)
    (ms : List (List Nat × Json)) : ∃ t, membersEnc ind lvl (k, v) ms = 34 :: t := by
  cases ms with
  | nil =>
    simp only [membersEnc, encodeString, List.cons_append]
    exact ⟨_, rfl⟩
  | cons m2 ms =>
    simp only [membersEnc, encodeString, List.cons_append]
    exact ⟨_, rfl⟩

/-- Round-trip between `json.dumps` and `json.loads`, by induction on the
parser's fuel: parsing the serialization (at any indentation setting) of a
well-formed value recovers the value exactly, leaving the trailing input;
similarly for a non-empty member list followed by whitespace and `}`. -/
theorem parse_round (f : Nat) :
    (∀ j, WFj j = true → ∀ ind lvl rest, fuelV j ≤ f →
        parseValue f (dumpsWith ind lvl j ++ rest) = some (j, rest))
  ∧ (∀ k v ms, WFm ((k, v) :: ms) = true → ∀ ind lvl ws rest, wsOnly ws = true →
        fuelM ((k, v) :: ms) ≤ f →
        parseObjMembers f (membersEnc ind lvl (k, v) ms ++ (ws ++ 125 :: rest))
          = some ((k, v) :: ms, rest)) := by
  induction f with
  | zero =>
    constructor
    · intro j _ ind lvl rest hf
      have := fuelV_pos j
      omega
    · intro k v ms _ ind lvl ws rest _ hf
      simp only [fuelM] at hf
      omega
  | succ f ih =>
    obtain ⟨ihv, ihm⟩ := ih
    constructor
    · intro j hwf ind lvl rest hf
      cases j with
      | null =>
        simp [parseValue, dumpsWith, skipWs, List.dropWhile_cons, isWsChar]
      | bool b =>
        cases b <;>
          simp [parseValue, dumpsWith, skipWs, List.dropWhile_cons, isWsChar]
      | num lex => simp [WFj] at hwf
      | arr xs => simp [WFj] at hwf
      | str s =>
        have hval : validStr s = true := by simpa [WFj] using hwf
        simp only [dumpsWith, encodeString, List.cons_append, List.append_assoc,
          List.singleton_append, List.nil_append]
        simp only [parseValue, skipWs_cons_of_not (show isWsChar 34 = false by decide),
          parseStringBody_escBody s hval, Option.map_some, Option.map_some', List.nil_append]
      | obj ms =>
        cases ms with
        | nil =>
          simp [parseValue, dumpsWith, skipWs, List.dropWhile_cons, isWsChar]
        | cons m ms =>
          obtain ⟨k, v⟩ := m
          have hwf2 : WFm ((k, v) :: ms) = true ∧ distinctKeys ((k, v) :: ms) = true := by
            simpa [WFj, Bool.and_eq_true] using hwf
          obtain ⟨t, ht⟩ := membersEnc_head ind (lvl + 1) k v ms
          have hskip : skipWs (nlws ind (lvl + 1) ++ (membersEnc ind (lvl + 1) (k, v) ms ++
              (nlws ind lvl ++ 125 :: rest))) =
              34 :: (t ++ (nlws ind lvl ++ 125 :: rest)) := by
            rw [skipWs_append (wsOnly_nlws ind (lvl + 1)), ht, List.cons_append,
              skipWs_cons_of_not (show isWsChar 34 = false by decide)]
          have hrec : parseObjMembers f (34 :: (t ++ (nlws ind lvl ++ 125 :: rest)))
              = some ((k, v) :: ms, rest) := by
            rw [← List.cons_append, ← ht]
            exact ihm k v ms hwf2.1 ind (lvl + 1) (nlws ind lvl) rest
              (wsOnly_nlws ind lvl) (by simp only [fuelV] at hf; omega)
          simp only [dumpsWith, List.cons_append, List.append_assoc, List.nil_append,
            List.singleton_append]
          simp only [parseValue, skipWs_cons_of_not (show isWsChar 123 = false by decide),
            hskip, hrec, Option.map_some, Option.map_some', foldl_objInsert_nil hwf2.2]
    · intro k v ms hwf ind lvl ws rest hws hf
      have hwf2 : validStr k = true ∧ WFj v = true ∧ WFm ms = true := by
        simpa [WFm, Bool.and_eq_true, and_assoc] using hwf
      cases ms with
      | nil =>
        have hv' : ∀ r, parseValue f (dumpsWith ind lvl v ++ r) = some (v, r) :=
          fun r => ihv v hwf2.2.1 ind lvl r (by simp only [fuelM, fuelV] at hf ⊢; omega)
        have hsp : ∀ l, parseValue f (32 :: l) = parseValue f l := by
          intro l
          have := parseValue_ws [32] (by decide) f l
          simpa using this
        have hclose : skipWs (ws ++ 125 :: rest) = 125 :: rest := by
          rw [skipWs_append hws, skipWs_cons_of_not (show isWsChar 125 = false by decide)]
        simp only [membersEnc, encodeString, List.cons_append, List.append_assoc,
          List.singleton_append, List.nil_append]
        simp only [parseObjMembers, skipWs_cons_of_not (show isWsChar 34 = false by decide),
          parseStringBody_escBody k hwf2.1,
          skipWs_cons_of_not (show isWsChar 58 = false by decide), hsp, hv', hclose]
      | cons m2 ms2 =>
        obtain ⟨k2, v2⟩ := m2
        have hv' : ∀ r, parseValue f (dumpsWith ind lvl v ++ r) = some (v, r) :=
          fun r => ihv v hwf2.2.1 ind lvl r (by simp only [fuelM] at hf ⊢; omega)
        have hsp : ∀ l, parseValue f (32 :: l) = parseValue f l := by
          intro l
          have := parseValue_ws [32] (by decide) f l
          simpa using this
        have hrec : parseObjMembers f (sepws ind lvl ++
            (membersEnc ind lvl (k2, v2) ms2 ++ (ws ++ 125 :: rest)))
            = some ((k2, v2) :: ms2, rest) := by
          rw [parseObjMembers_ws (wsOnly_sepws ind lvl) f]
          exact ihm k2 v2 ms2 (by
              simp only [WFm, Bool.and_eq_true] at hwf2 ⊢
              exact hwf2.2.2) ind lvl ws rest hws
            (by simp only [fuelM] at hf ⊢; omega)
        simp only [membersEnc, encodeString, List.cons_append, List.append_assoc,
          List.singleton_append, List.nil_append]
        simp only [parseObjMembers, skipWs_cons_of_not (show isWsChar 34 = false by decide),
          parseStringBody_escBody k hwf2.1,
          skipWs_cons_of_not (show isWsChar 58 = false by decide), hsp, hv',
          skipWs_cons_of_not (show isWsChar 44 = false by decide), hrec, Option.map_some, Option.map_some']

theorem WFm_parts {k : List Nat} {v : Json} {ms : List (List Nat × Json)}
    (h : WFm ((k, v) :: ms) = true) :
    validStr k = true ∧ WFj v = true ∧ WFm ms = true := by
  simp only [WFm, Bool.and_eq_true] at h
  exact ⟨h.1.1, h.1.2, h.2⟩

mutual

theorem fuelV_le : ∀ (j : Json), WFj j = true → ∀ (ind : Option Nat) (lvl : Nat),
    fuelV j ≤ (dumpsWith ind lvl j).length + 1
  | Json.null, _, _, _ => by simp [fuelV]
  | Json.bool b, _, _, _ => by simp [fuelV]
  | Json.num lex, hj, _, _ => by simp [WFj] at hj
  | Json.str s, _, _, _ => by simp [fuelV]
  | Json.arr xs, hj, _, _ => by simp [WFj] at hj
  | Json.obj [], _, _, _ => by simp [fuelV, fuelM, dumpsWith]
  | Json.obj ((k, v) :: ms), hj, ind, lvl => by
    have hm : WFm ((k, v) :: ms) = true := by
      simp only [WFj, Bool.and_eq_true] at hj
      exact hj.1
    have h1 := fuelM_le k v ms hm ind (lvl + 1)
    simp only [fuelV, dumpsWith, List.length_cons, List.length_append]
    omega
termination_by j => sizeOf j

theorem fuelM_le : ∀ (k : List Nat) (v : Json) (ms : List (List Nat × Json)),
    WFm ((k, v) :: ms) = true → ∀ (ind : Option Nat) (lvl : Nat),
    fuelM ((k, v) :: ms) ≤ (membersEnc ind lvl (k, v) ms).length
  | k, v, [], hm, ind, lvl => by
    obtain ⟨hk, hv, hms⟩ := WFm_parts hm
    have h1 := fuelV_le v hv ind lvl
    simp only [fuelM, membersEnc, encodeString, List.length_append, List.length_cons,
      List.length_nil]
    omega
  | k, v, (k2, v2) :: ms2, hm, ind, lvl => by
    obtain ⟨hk, hv, hms⟩ := WFm_parts hm
    have h1 := fuelV_le v hv ind lvl
    have h2 := fuelM_le k2 v2 ms2 hms ind lvl
    simp only [fuelM] at h2
    simp only [fuelM, membersEnc, encodeString, List.length_append, List.length_cons,
      List.length_nil]
    omega
termination_by k v ms => 1 + sizeOf k + sizeOf v + sizeOf ms

end

/-- Top-level round trip: `json.loads` applied to `json.dumps` of a
well-formed value (compact or indented) returns the value. -/
theorem loads_dumpsWith (j : Json) (h : WFj j = true) (ind : Option Nat) (lvl : Nat) :
    loads (dumpsWith ind lvl j) = some j := by
  have hlen : fuelV j ≤ (dumpsWith ind lvl j).length + 1 := fuelV_le j h ind lvl
  have hr := (parse_round ((dumpsWith ind lvl j).length + 1)).1 j h ind lvl [] hlen
  rw [List.append_nil] at hr
  simp [loads, hr, skipWs_nil]

/-! # The application (`src/app.py`) -/

/-! ## Static routing and Content-type (`HttpHandler.send_html_file` / `do_GET`) -/

/-- The extension-to-MIME-type entries relevant to the files the program
serves, as `mimetypes.guess_type` resolves them; unknown extensions give
`None`. -/
def mimeOfExt (e : String) : Option String :=
  if e = "html" then some "text/html"
  else if e = "png" then some "image/png"
  else if e = "css" then some "text/css"
  else none

/-- The characters after the last dot, when the name contains one. -/
def lastExt : List Char → Option (List Char)
  | [] => none
  | c :: rest =>
    if c = '.' then
      match lastExt rest with
      | some e => some e
      | none => some rest
    else lastExt rest

/-- The filename's extension: the part after the last dot (a name without
a dot has an unknown type, as in `mimetypes`). -/
def extOf (fn : String) : String :=
  match lastExt fn.data with
  | some e => String.mk e
  | none => ""

/-- `mimetypes.guess_type(filename)`: a `(type, encoding)` 2-tuple whose
first component is `None` for an unknown extension; the program serves no
encoded files, so the encoding component is always `None`. -/
def guess_type (fn : String) : Option String × Option String := (mimeOfExt (extOf fn), none)

/-- Python truthiness of the value tested by `if guess:` (line 62): `guess`
is the 2-tuple returned by `mimetypes.guess_type`, and a non-empty tuple is
always truthy, whatever its components are. -/
def guessTruthy (_g : Option String × Option String) : Bool := true

/-- The `Content-type` header value chosen by `send_html_file`
(lines 61-66): `guess = mimetypes.guess_type(filename)`; `if guess:
header_type = guess[0] else: header_type = "text/plain"`.  `none` models
the Python value `None` being used as the header value. -/
def send_html_file_contentType (filename : String) : Option String :=
  let guess := guess_type filename
  if guessTruthy guess then guess.1 else some "text/plain"

/-- Status and Content-type of `send_html_file filename status`
(lines 48-69). -/
def send_html_file (filename : String) (status : Nat) : Nat × Option String :=
  (status, send_html_file_contentType filename)

/-- `HttpHandler.do_GET` (lines 71-87): route the parsed URL path to a
static file, an unrecognized path to the error page with status 404. -/
def do_GET (path : String) : Nat × Option String :=
  match path with
  | "/" => send_html_file "static/index.html" 200
  | "/message.html" => send_html_file "static/message.html" 200
  | "/logo.png" => send_html_file "static/logo.png" 200
  | "/style.css" => send_html_file "static/style.css" 200
  | _ => send_html_file "static/error.html" 404

/-! ## POST body parsing (`HttpHandler.do_POST`, lines 101-104) -/

/-- `urllib.parse.unquote_plus` at the octet level: `+` becomes space and
`%xx` becomes the encoded octet; a malformed escape stays literal.  (CPython
additionally reassembles the decoded octets as UTF-8; the form fields are
split and compared bytewise here, where that re-decoding is the identity on
the ASCII payloads at issue.) -/
def unquote_plus_go : Nat → List Nat → List Nat
  | 0, _ => []
  | _ + 1, [] => []
  | f + 1, 43 :: rest => 32 :: unquote_plus_go f rest
  | f + 1, 37 :: a :: b :: rest =>
    match fromHexDigit a, fromHexDigit b with
    | some x, some y => (16 * x + y) :: unquote_plus_go f rest
    | _, _ => 37 :: unquote_plus_go f (a :: b :: rest)
  | f + 1, c :: rest => c :: unquote_plus_go f rest

/-- Entry point: every step consumes at least one input character, so fuel
equal to the input length always suffices. -/
def unquote_plus (l : List Nat) : List Nat := unquote_plus_go l.length l

/-- `str.split(sep)` for a one-character separator: the (possibly empty)
pieces between occurrences; the split of an empty string is `['']`. -/
def splitOnByte (sep : Nat) : List Nat → List (List Nat)
  | [] => [[]]
  | c :: rest =>
    let r := splitOnByte sep rest
    if c = sep then [] :: r
    else
      match r with
      | p :: ps => (c :: p) :: ps
      | [] => [[c]]

/-- The `key, val` unpacking in the dict comprehension (line 104): exactly
two pieces, otherwise a `ValueError` is raised. -/
def pairOf : List (List Nat) → Option (List Nat × List Nat)
  | [k, v] => some (k, v)
  | _ => none

/-- Unpack every element, propagating the `ValueError` of a piece that is
not exactly `key=value`. -/
def collectPairs : List (List (List Nat)) → Option (List (List Nat × List Nat))
  | [] => some []
  | e :: es =>
    match pairOf e with
    | none => none
    | some p => (collectPairs es).map (fun ps => p :: ps)

/-- The `key=value` pairs of a POST body in order (lines 102-103):
URL-decode first, then split on `&`, then split each piece on `=`. -/
def formPairs (body : List Nat) : Option (List (List Nat × List Nat)) :=
  collectPairs ((splitOnByte 38 (unquote_plus body)).map (splitOnByte 61))

/-- A Submission: the parsed form data of one POST, a Python `dict` from
field name to field value, modelled as an insertion-ordered association
list. -/
abbrev Submission : Type := List (List Nat × List Nat)

/-- Python `dict` insert for string values (an existing key keeps its
position and receives the new value, a new key is appended). -/
def subInsert (k v : List Nat) : Submission → Submission
  | [] => [(k, v)]
  | (k2, v2) :: rest => if k2 = k then (k2, v) :: rest else (k2, v2) :: subInsert k v rest

/-- Key lookup in a Submission. -/
def subLookup (k : List Nat) : Submission → Option (List Nat)
  | [] => none
  | (k2, v2) :: rest => if k2 = k then some v2 else subLookup k rest

/-- The dict comprehension `{key: val for key, val in data_list}`
(line 104): insert the pairs in order, a later duplicate key overwriting
the earlier value. -/
def formDict (body : List Nat) : Option Submission :=
  (formPairs body).map (fun ps => ps.foldl (fun d p => subInsert p.1 p.2 d) [])

/-! ## Codec (`socket_client` line 167 / `storage_handler` line 188) -/

/-- A Submission as the JSON object `json.dumps` receives. -/
def subToJson (S : Submission) : Json := Json.obj (S.map (fun p => (p.1, Json.str p.2)))

/-- `encode`: the datagram payload `json.dumps(message).encode('utf-8')`
built by `socket_client` (line 167); the `dumps` output is ASCII, on which
UTF-8 encoding is the identity. -/
def encode (S : Submission) : List Nat := dumpsWith none 0 (subToJson S)

/-- `decode`: `json.loads(data.decode('utf-8'))` as applied by
`storage_handler` to a received datagram (line 188). -/
def decode (bs : List Nat) : Option Json := loads bs

/-- Distinct Submission keys. -/
def distinctKeysS : Submission → Bool
  | [] => true
  | (k, _) :: ms => ms.all (fun m => !(decide (m.1 = k))) && distinctKeysS ms

/-- Well-formed Submissions: keys and values are strings of Unicode scalar
values, and keys are distinct (a Python `dict` cannot hold one key
twice). -/
def SubWF (S : Submission) : Bool :=
  S.all (fun p => validStr p.1 && validStr p.2) && distinctKeysS S

/-! ## HTTP POST response (`HttpHandler.do_POST`, lines 89-109) -/

/-- The response `do_POST` emits: `send_response(302)` and the
`Location: /` header (the path `/` is the byte 47). -/
structure PostResponse where
  status : Nat
  location : Option (List Nat)
deriving DecidableEq

/-- `do_POST` (lines 101-109): read exactly `Content-Length` bytes of the
request stream, parse them into a Submission (an unpacking failure raises
`ValueError`, which propagates), call the Datagram Client — whose outcome
is the explicit `send` parameter, a raised error propagating — and only
after the send returns, respond `302` with `Location: /`. -/
def do_POST (send : Submission → Except Unit Unit) (contentLength : Nat)
    (stream : List Nat) : Except Unit PostResponse :=
  let body := stream.take contentLength
  match formDict body with
  | none => Except.error ()
  | some d =>
    match send d with
    | Except.error e => Except.error e
    | Except.ok _ => Except.ok ⟨302, some [47]⟩

/-! ## Storage Writer (`storage_handler`, lines 174-198) -/

/-- A file access performed by the Storage Writer. -/
inductive FileOp where
  | read : FileOp
  | write : List Nat → FileOp

/-- Outcome of one `storage_handler` call: the file operations performed in
order, whether an exception escaped, and the log file's state afterwards. -/
structure StorageResult where
  ops : List FileOp
  err : Bool
  file : Option (List Nat)

/-- `storage_handler(data, file_path)` (lines 188-198), with the clock and
the file system explicit: `ts` is `str(datetime.now())` and `file` the
current log-file contents (`none` when `os.path.exists` is false).
1. `message = json.loads(data.decode('utf-8'))` runs first, before any
   file access; its failure propagates with the file untouched.
2. When the file exists its full contents are read and parsed; a parse
   failure — or a JSON value that is not an object, on which
   `file_dict.update` would raise — escapes after the read, leaving the
   contents as they were.
3. `file_dict.update({ts: message})` inserts or overwrites the timestamp
   key, and the whole mapping is rewritten as `json.dumps(file_dict,
   indent=2)`. -/
def storage_handler (ts data : List Nat) (file : Option (List Nat)) : StorageResult :=
  match loads data with
  | none => ⟨[], true, file⟩
  | some message =>
    match file with
    | none =>
      let out := dumpsWith (some 2) 0 (Json.obj (objInsert ts message []))
      ⟨[FileOp.write out], false, some out⟩
    | some content =>
      match loads content with
      | some (Json.obj ms) =>
        let out := dumpsWith (some 2) 0 (Json.obj (objInsert ts message ms))
        ⟨[FileOp.read, FileOp.write out], false, some out⟩
      | _ => ⟨[FileOp.read], true, some content⟩

/-- The log-file state after the Datagram Server receives the given
datagrams in order (each `(timestamp, submission)` entry arriving as the
Datagram Client's encoding of the submission) and hands each to
`storage_handler` synchronously (lines 230-239). -/
def appendAll (entries : List (List Nat × Submission)) (file0 : Option (List Nat)) :
    Option (List Nat) :=
  entries.foldl (fun st e => (storage_handler e.1 (encode e.2) st).file) file0

/-! ## The HTTP serve loop (`run_http`, lines 114-149) -/

/-- Where `run_http` stands: at the `while not stop_ev.is_set()` check,
blocked inside `http.serve_forever()`, or returned after
`http.server_close()`. -/
inductive HttpLoopState where
  | checking : HttpLoopState
  | serving : HttpLoopState
  | closed : HttpLoopState
deriving DecidableEq

/-- One step of `run_http` (lines 146-149) under the given stop-event
state: the `while` check exits to `server_close()` when the event is set
and otherwise enters `http.serve_forever()`; `serve_forever` returns only
when `shutdown()` is called on the server, and nothing in the program ever
calls `shutdown()`, so from `serving` every step stays `serving` whatever
the event's state. -/
def run_http_step (stopSet : Bool) : HttpLoopState → HttpLoopState
  | HttpLoopState.checking =>
    if stopSet then HttpLoopState.closed else HttpLoopState.serving
  | HttpLoopState.serving => HttpLoopState.serving
  | HttpLoopState.closed => HttpLoopState.closed

/-! ## Lifecycle Coordinator (`__main__`, lines 279-287) -/

/-- The observable actions of the `__main__` start/stop sequence.
`joinHttpInterrupted` is the `http_thread.join()` call that a
`KeyboardInterrupt` aborts; `joinHttp` is a join of the HTTP thread that
runs to completion. -/
inductive CoordAction where
  | startHttp : CoordAction
  | startSocket : CoordAction
  | joinHttp : CoordAction
  | joinHttpInterrupted : CoordAction
  | setSignal : CoordAction
  | joinSocket : CoordAction
  | reportStopped : CoordAction
deriving DecidableEq

/-- The `except KeyboardInterrupt` handler (lines 284-287): set the stop
event, join the socket thread, log "Server stopped.".  The interrupted
`http_thread.join()` is not retried and no further join of the HTTP
thread appears. -/
def interrupt_handler : List CoordAction :=
  [CoordAction.setSignal, CoordAction.joinSocket, CoordAction.reportStopped]

/-- The `__main__` sequence (lines 279-287): start both threads, then
`try: http_thread.join()`; on a `KeyboardInterrupt` during that join, run
the handler. -/
def coordinator (interrupted : Bool) : List CoordAction :=
  [CoordAction.startHttp, CoordAction.startSocket] ++
    (if interrupted then CoordAction.joinHttpInterrupted :: interrupt_handler
     else [CoordAction.joinHttp])

/-! ## Dictionary laws -/

theorem objLookup_objInsert_self (k : List Nat) (v : Json) (d : List (List Nat × Json)) :
    objLookup k (objInsert k v d) = some v := by
  induction d with
  | nil => simp [objInsert, objLookup]
  | cons p rest ih =>
    obtain ⟨k2, v2⟩ := p
    by_cases h : k2 = k
    · subst h
      simp [objInsert, objLookup]
    · simp [objInsert, objLookup, h, ih]

theorem objLookup_objInsert_other {k k2 : List Nat} (h : k2 ≠ k) (v : Json)
    (d : List (List Nat × Json)) :
    objLookup k2 (objInsert k v d) = objLookup k2 d := by
  induction d with
  | nil =>
    simp only [objInsert, objLookup]
    rw [if_neg (fun e => h e.symm)]
  | cons p rest ih =>
    obtain ⟨k3, v3⟩ := p
    by_cases h3 : k3 = k
    · subst h3
      simp only [objInsert]
      simp only [if_true]
      simp only [objLookup]
      rw [if_neg (fun e => h e.symm), if_neg (fun e => h e.symm)]
    · simp only [objInsert, if_neg h3, objLookup]
      by_cases h2 : k3 = k2
      · rw [if_pos h2, if_pos h2]
      · rw [if_neg h2, if_neg h2, ih]

theorem all_key_objInsert {q k : List Nat} {v : Json} {d : List (List Nat × Json)}
    (hd : d.all (fun m => !(decide (m.1 = q))) = true) (hk : k ≠ q) :
    (objInsert k v d).all (fun m => !(decide (m.1 = q))) = true := by
  induction d with
  | nil => simp [objInsert, hk]
  | cons p rest ih =>
    obtain ⟨k2, v2⟩ := p
    simp only [List.all_cons, Bool.and_eq_true] at hd
    by_cases h : k2 = k
    · subst h
      simp only [objInsert]
      simp only [if_true]
      simp only [List.all_cons, Bool.and_eq_true]
      exact ⟨hd.1, hd.2⟩
    · simp only [objInsert]
      rw [if_neg h]
      simp only [List.all_cons, Bool.and_eq_true]
      exact ⟨hd.1, ih hd.2⟩

theorem distinctKeys_objInsert {k : List Nat} {v : Json} {d : List (List Nat × Json)}
    (h : distinctKeys d = true) : distinctKeys (objInsert k v d) = true := by
  induction d with
  | nil => simp [objInsert, distinctKeys]
  | cons p rest ih =>
    obtain ⟨k2, v2⟩ := p
    simp only [distinctKeys, Bool.and_eq_true] at h
    by_cases hk : k2 = k
    · subst hk
      simp only [objInsert]
      simp only [if_true]
      simp only [distinctKeys, Bool.and_eq_true]
      exact h
    · simp only [objInsert]
      rw [if_neg hk]
      simp only [distinctKeys, Bool.and_eq_true]
      exact ⟨all_key_objInsert h.1 (fun e => hk e.symm), ih h.2⟩

theorem WFm_objInsert {k : List Nat} {v : Json} {d : List (List Nat × Json)}
    (hk : validStr k = true) (hv : WFj v = true) (hd : WFm d = true) :
    WFm (objInsert k v d) = true := by
  induction d with
  | nil => simp [objInsert, WFm, hk, hv]
  | cons p rest ih =>
    obtain ⟨k2, v2⟩ := p
    obtain ⟨hk2, hv2, hrest⟩ := WFm_parts hd
    by_cases h : k2 = k
    · subst h
      simp only [objInsert]
      simp only [if_true]
      simp only [WFm, Bool.and_eq_true]
      exact ⟨⟨hk2, hv⟩, hrest⟩
    · simp only [objInsert]
      rw [if_neg h]
      simp only [WFm, Bool.and_eq_true]
      exact ⟨⟨hk2, hv2⟩, ih hrest⟩

/-! ## Submissions are well-formed JSON objects -/

theorem WFm_subToJson {S : Submission}
    (h : S.all (fun p => validStr p.1 && validStr p.2) = true) :
    WFm (S.map (fun p => (p.1, Json.str p.2))) = true := by
  induction S with
  | nil => simp [WFm]
  | cons p rest ih =>
    obtain ⟨k, v⟩ := p
    simp only [List.all_cons, Bool.and_eq_true] at h
    simp only [List.map_cons, WFm, WFj, Bool.and_eq_true]
    exact ⟨⟨h.1.1, h.1.2⟩, ih h.2⟩

theorem distinctKeys_subToJson {S : Submission} (h : distinctKeysS S = true) :
    distinctKeys (S.map (fun p => (p.1, Json.str p.2))) = true := by
  induction S with
  | nil => simp [distinctKeys]
  | cons p rest ih =>
    obtain ⟨k, v⟩ := p
    simp only [distinctKeysS, Bool.and_eq_true, List.all_eq_true] at h
    simp only [List.map_cons, distinctKeys, Bool.and_eq_true, List.all_eq_true]
    constructor
    · intro m hm
      obtain ⟨q, hq, hqe⟩ := List.mem_map.1 hm
      subst hqe
      exact h.1 q hq
    · exact ih h.2

theorem WFj_subToJson {S : Submission} (h : SubWF S = true) :
    WFj (subToJson S) = true := by
  simp only [SubWF, Bool.and_eq_true] at h
  simp only [subToJson, WFj, Bool.and_eq_true]
  exact ⟨WFm_subToJson h.1, distinctKeys_subToJson h.2⟩

/-- Round trip for Submissions: decoding the Datagram Client's payload of a
well-formed Submission gives back the same mapping. -/
theorem decode_encode {S : Submission} (h : SubWF S = true) :
    decode (encode S) = some (subToJson S) :=
  loads_dumpsWith (subToJson S) (WFj_subToJson h) none 0

/-! ## Last write wins in the dict comprehension -/

theorem subLookup_subInsert (k k2 v : List Nat) (d : Submission) :
    subLookup k2 (subInsert k v d) = if k = k2 then some v else subLookup k2 d := by
  induction d with
  | nil => simp [subInsert, subLookup]
  | cons p rest ih =>
    obtain ⟨k3, v3⟩ := p
    by_cases h3 : k3 = k
    · subst h3
      simp only [subInsert]
      simp only [if_true]
      simp only [subLookup]
      by_cases h2 : k3 = k2
      · rw [if_pos h2, if_pos h2]
      · rw [if_neg h2, if_neg h2, if_neg h2]
    · simp only [subInsert]
      rw [if_neg h3]
      simp only [subLookup]
      by_cases h2 : k3 = k2
      · subst h2
        rw [if_pos rfl, if_neg (fun e => h3 e.symm), if_pos rfl]
      · rw [if_neg h2, if_neg h2, ih]

theorem subLookup_foldl (ps : List (List Nat × List Nat)) :
    ∀ (acc : Submission) (k : List Nat),
      subLookup k (ps.foldl (fun d p => subInsert p.1 p.2 d) acc)
        = match ps.reverse.find? (fun p => decide (p.1 = k)) with
          | some p => some p.2
          | none => subLookup k acc := by
  induction ps with
  | nil => intro acc k; simp
  | cons p ps ih =>
    intro acc k
    obtain ⟨k1, v1⟩ := p
    rw [List.foldl_cons, ih, List.reverse_cons, List.find?_append]
    cases hf : ps.reverse.find? (fun p => decide (p.1 = k)) with
    | some q => simp
    | none =>
      simp only [Option.none_or]
      by_cases hk : k1 = k
      · simp [List.find?, hk, subLookup_subInsert]
      · simp [List.find?, hk, subLookup_subInsert]

/-! ## The storage invariant -/

/-- Pairwise-distinct timestamps in a batch of entries. -/
def distinctTs : List (List Nat × Submission) → Bool
  | [] => true
  | (t, _) :: es => es.all (fun e => !(decide (e.1 = t))) && distinctTs es

/-- The JSON log object holding the given entries in order. -/
def logOf (entries : List (List Nat × Submission)) : List (List Nat × Json) :=
  entries.map (fun e => (e.1, subToJson e.2))

theorem distinctKeys_logOf {entries : List (List Nat × Submission)}
    (h : distinctTs entries = true) : distinctKeys (logOf entries) = true := by
  induction entries with
  | nil => simp [distinctKeys, logOf]
  | cons e es ih =>
    obtain ⟨t, s⟩ := e
    simp only [distinctTs, Bool.and_eq_true, List.all_eq_true] at h
    simp only [logOf, List.map_cons, distinctKeys, Bool.and_eq_true, List.all_eq_true]
    constructor
    · intro m hm
      obtain ⟨q, hq, hqe⟩ := List.mem_map.1 hm
      subst hqe
      exact h.1 q hq
    · exact ih h.2

theorem WFm_logOf {entries : List (List Nat × Submission)}
    (h : entries.all (fun e => validStr e.1 && SubWF e.2) = true) :
    WFm (logOf entries) = true := by
  induction entries with
  | nil => simp [WFm, logOf]
  | cons e es ih =>
    obtain ⟨t, s⟩ := e
    simp only [List.all_cons, Bool.and_eq_true] at h
    simp only [logOf, List.map_cons, WFm, Bool.and_eq_true]
    exact ⟨⟨h.1.1, WFj_subToJson h.1.2⟩, ih h.2⟩

/-- One `storage_handler` step on a well-formed log file: the datagram and
the file parse, the entry is inserted, and the file is rewritten. -/
theorem storage_handler_step (ts : List Nat) {sub : Submission}
    {d : List (List Nat × Json)} (hsub : SubWF sub = true)
    (hWFd : WFm d = true) (hdk : distinctKeys d = true) :
    storage_handler ts (encode sub) (some (dumpsWith (some 2) 0 (Json.obj d)))
      = ⟨[FileOp.read, FileOp.write
            (dumpsWith (some 2) 0 (Json.obj (objInsert ts (subToJson sub) d)))], false,
          some (dumpsWith (some 2) 0 (Json.obj (objInsert ts (subToJson sub) d)))⟩ := by
  have h1 : loads (encode sub) = some (subToJson sub) := decode_encode hsub
  have h2 : loads (dumpsWith (some 2) 0 (Json.obj d)) = some (Json.obj d) :=
    loads_dumpsWith _ (by
      simp only [WFj, Bool.and_eq_true]
      exact ⟨hWFd, hdk⟩) _ _
  simp [storage_handler, h1, h2]

/-- Appending a batch of well-formed entries to a well-formed log file
inserts them in order. -/
theorem appendAll_inv (entries : List (List Nat × Submission)) :
    ∀ d : List (List Nat × Json), WFm d = true → distinctKeys d = true →
      entries.all (fun e => validStr e.1 && SubWF e.2) = true →
      appendAll entries (some (dumpsWith (some 2) 0 (Json.obj d)))
        = some (dumpsWith (some 2) 0 (Json.obj
            (entries.foldl (fun acc e => objInsert e.1 (subToJson e.2) acc) d))) := by
  induction entries with
  | nil => intro d _ _ _; simp [appendAll]
  | cons e es ih =>
    intro d hWFd hdk hall
    obtain ⟨ts, sub⟩ := e
    simp only [List.all_cons, Bool.and_eq_true] at hall
    show ((ts, sub) :: es).foldl (fun st e => (storage_handler e.1 (encode e.2) st).file)
        (some (dumpsWith (some 2) 0 (Json.obj d))) = _
    rw [List.foldl_cons, storage_handler_step ts hall.1.2 hWFd hdk]
    have hrest := ih (objInsert ts (subToJson sub) d)
      (WFm_objInsert hall.1.1 (WFj_subToJson hall.1.2) hWFd)
      (distinctKeys_objInsert hdk) hall.2
    show appendAll es (some (dumpsWith (some 2) 0
        (Json.obj (objInsert ts (subToJson sub) d)))) = _
    rw [hrest, List.foldl_cons]

/-- A key found in a well-formed member list is a valid string. -/
theorem validStr_of_lookup {k : List Nat} {d : List (List Nat × Json)}
    (hWF : WFm d = true) (h : (objLookup k d).isSome = true) : validStr k = true := by
  induction d with
  | nil => simp [objLookup] at h
  | cons p rest ih =>
    obtain ⟨k2, v2⟩ := p
    obtain ⟨hk2, _, hrest⟩ := WFm_parts hWF
    simp only [objLookup] at h
    by_cases he : k2 = k
    · subst he
      exact hk2
    · rw [if_neg he] at h
      exact ih hrest h

/-! # The claims -/

/-- C1: the claim says that setting the Cancellation Signal while both
listeners are in their loops makes both terminate within one poll period —
in particular that `run_http`'s loop terminates once the stop event is set.
The code cannot do this: `run_http` checks `stop_ev` only between calls of
`http.serve_forever()`, and `serve_forever` returns only when `shutdown()`
is called, which nothing in the program does.  This theorem evaluates the
loop at the failing situation: with the stop event set and the thread
inside `serve_forever`, no number of steps ever reaches the closed state,
so `http.server_close()` (line 149) is never executed. -/
theorem c1_run_http_never_observes_stop (n : Nat) :
    Nat.iterate (run_http_step true) n HttpLoopState.serving ≠ HttpLoopState.closed := by
  have h : ∀ m, Nat.iterate (run_http_step true) m HttpLoopState.serving
      = HttpLoopState.serving := by
    intro m
    induction m with
    | zero => rfl
    | succ m ihm =>
      rw [Function.iterate_succ_apply]
      exact ihm
  rw [h n]
  decide

/-- C2 counterexample: the claim says `do_POST` responds `302` with
`Location: /` even when the datagram send raises a `TransportError`.  At
the concrete body `a=b` with a raising send, `do_POST` propagates the
exception instead: the uncaught error aborts the handler before
`send_response(302)` (line 107) is reached. -/
theorem c2_counterexample_send_error_no_redirect :
    do_POST (fun _ => Except.error ()) 3 [97, 61, 98]
      ≠ Except.ok ⟨302, some [47]⟩ := by
  intro h
  rw [show do_POST (fun _ => Except.error ()) 3 [97, 61, 98]
      = Except.error () from rfl] at h
  exact Except.noConfusion h

/-- C2 as amended: for every POST request whose body parses, `do_POST`
responds `302` with a `Location: /` header exactly when the datagram send
returns without raising; a raised send error propagates out of the handler
and no response is issued. -/
theorem c2_redirect_iff_send_returns (send : Submission → Except Unit Unit)
    (contentLength : Nat) (stream : List Nat) (d : Submission)
    (h : formDict (stream.take contentLength) = some d) :
    do_POST send contentLength stream
      = (match send d with
         | Except.ok _ => Except.ok ⟨302, some [47]⟩
         | Except.error e => Except.error e) := by
  simp only [do_POST, h]
  cases send d <;> rfl

/-- C2 witness: on the concrete body `a=b`, a successful send yields the
`302` redirect to `/` and a raising send yields the propagated error. -/
theorem c2_witness :
    do_POST (fun _ => Except.ok ()) 3 [97, 61, 98, 120]
        = Except.ok ⟨302, some [47]⟩ ∧
      do_POST (fun _ => Except.error ()) 3 [97, 61, 98, 120] = Except.error () := by
  constructor
  · exact c2_redirect_iff_send_returns (fun _ => Except.ok ()) 3 [97, 61, 98, 120]
      [([97], [98])] rfl
  · exact c2_redirect_iff_send_returns (fun _ => Except.error ()) 3 [97, 61, 98, 120]
      [([97], [98])] rfl

/-- C3: for every POST request, the handler reads exactly `Content-Length`
bytes of the stream, URL-decodes them, splits on `&` and `=` into
`key=value` pairs, and builds a string-to-string mapping in which every
key is bound to the **last** value listed for it (the value of the last
matching pair). -/
theorem c3_post_parse_last_duplicate_wins (contentLength : Nat) (stream : List Nat)
    (pairs : List (List Nat × List Nat))
    (h : formPairs (stream.take contentLength) = some pairs) :
    ∃ d, formDict (stream.take contentLength) = some d ∧
      ∀ k, subLookup k d
        = (match pairs.reverse.find? (fun p => decide (p.1 = k)) with
           | some p => some p.2
           | none => none) := by
  refine ⟨pairs.foldl (fun d p => subInsert p.1 p.2 d) [], ?_, ?_⟩
  · simp only [formDict, h, Option.map_some']
  · intro k
    rw [subLookup_foldl]
    cases pairs.reverse.find? (fun p => decide (p.1 = k)) with
    | none => simp [subLookup]
    | some q => simp

/-- C3 witness: the body `a=1&b=2&a=3` parses to the mapping in which `a`
is bound to `3` (the last duplicate) and `b` to `2`. -/
theorem c3_witness :
    formPairs (List.take 11 [97, 61, 49, 38, 98, 61, 50, 38, 97, 61, 51])
        = some [([97], [49]), ([98], [50]), ([97], [51])] ∧
      ∃ d, formDict (List.take 11 [97, 61, 49, 38, 98, 61, 50, 38, 97, 61, 51])
          = some d ∧
        ∀ k, subLookup k d
          = (match ([([97], [49]), ([98], [50]), ([97], [51])].reverse.find?
                (fun p => decide (p.1 = k))) with
             | some p => some p.2
             | none => none) :=
  ⟨rfl, c3_post_parse_last_duplicate_wins 11 [97, 61, 49, 38, 98, 61, 50, 38, 97, 61, 51]
    [([97], [49]), ([98], [50]), ([97], [51])] rfl⟩

/-- C4: the claim says GET responses carry a Content-type derived from the
filename, **and** that a filename with an unknown extension falls back to
`text/plain`.  The four routes and the 404 route do get the derived types,
but the fallback is dead code: `guess = mimetypes.guess_type(filename)` is
a 2-tuple, so `if guess:` (line 62) is always true and `header_type`
becomes `guess[0]`, which is `None` for an unknown extension — the
response then carries `Content-type: None`, never `text/plain`.  This
theorem evaluates the routes and the failing input. -/
theorem c4_get_routes_and_dead_fallback :
    do_GET "/" = (200, some "text/html") ∧
      do_GET "/message.html" = (200, some "text/html") ∧
      do_GET "/logo.png" = (200, some "image/png") ∧
      do_GET "/style.css" = (200, some "text/css") ∧
      do_GET "/anything-else" = (404, some "text/html") ∧
      send_html_file "static/upload.xyz" 200 = (200, none) ∧
      send_html_file_contentType "static/upload.xyz" ≠ some "text/plain" := by
  refine ⟨rfl, rfl, rfl, rfl, by decide, by decide, by decide⟩

/-- C5 counterexample: the claim says decode fails on every byte sequence
that is valid JSON but not a string-to-string object.  The JSON array `[]`
(bytes `91, 93`) is valid JSON and not an object, yet
`json.loads` (line 188) accepts it. -/
theorem c5_counterexample_array_accepted :
    decode [91, 93] = some (Json.arr []) := rfl

/-- C5 as amended: decode (`json.loads` on line 188) fails exactly on
bytes that are not valid JSON; a parse to any JSON value — object of
strings or not — is accepted, and `storage_handler` stores it under the
timestamp without any shape validation. -/
theorem c5_decode_validates_json_only :
    (∀ ts data j, decode data = some j →
        (storage_handler ts data none).err = false ∧
        (storage_handler ts data none).file
          = some (dumpsWith (some 2) 0 (Json.obj [(ts, j)]))) ∧
      (∀ ts data, decode data = none → (storage_handler ts data none).err = true) := by
  constructor
  · intro ts data j h
    rw [decode] at h
    constructor
    · simp [storage_handler, h]
    · simp [storage_handler, h, objInsert]
  · intro ts data h
    rw [decode] at h
    simp [storage_handler, h]

/-- C5 witness: the JSON array `[]` is decoded successfully and stored
as-is under the timestamp; the non-JSON bytes `no` make the decode — and
the whole storage step — fail. -/
theorem c5_witness :
    decode [91, 93] = some (Json.arr []) ∧
      ((storage_handler [116] [91, 93] none).err = false ∧
        (storage_handler [116] [91, 93] none).file
          = some (dumpsWith (some 2) 0 (Json.obj [([116], Json.arr [])]))) ∧
      decode [110, 111] = none ∧
      (storage_handler [116] [110, 111] none).err = true :=
  ⟨rfl, c5_decode_validates_json_only.1 [116] [91, 93] (Json.arr []) rfl,
    rfl, c5_decode_validates_json_only.2 [116] [110, 111] rfl⟩

/-- C6: for every Submission (a finite string-to-string mapping) that is
well formed and whose encoding fits the 1024-byte datagram bound, decoding
the Datagram Client's encoding yields the same mapping:
`decode (encode S) = S`. -/
theorem c6_codec_roundtrip (S : Submission) (h1 : SubWF S = true)
    (_h2 : (encode S).length ≤ 1024) :
    decode (encode S) = some (subToJson S) :=
  decode_encode h1

/-- C6 witness: the round trip at the concrete Submission
`{name: Ann}`. -/
theorem c6_witness :
    SubWF [([110, 97, 109, 101], [65, 110, 110])] = true ∧
      (encode [([110, 97, 109, 101], [65, 110, 110])]).length ≤ 1024 ∧
      decode (encode [([110, 97, 109, 101], [65, 110, 110])])
        = some (subToJson [([110, 97, 109, 101], [65, 110, 110])]) := by
  have hlen : (encode [([110, 97, 109, 101], [65, 110, 110])]).length ≤ 1024 := by
    simp [encode, subToJson, dumpsWith, membersEnc, encodeString, escBody, escapeChar,
      nlws, sepws]
  exact ⟨by decide, hlen,
    c6_codec_roundtrip [([110, 97, 109, 101], [65, 110, 110])] (by decide) hlen⟩

/-- C7: appending a sequence of entries with pairwise-distinct timestamp
keys, starting from an empty log file (or, when the sequence is non-empty,
from an absent one), produces a log file whose JSON object holds exactly
those keys in order, each mapped to the Submission that was appended under
it. -/
theorem c7_batch_append_exact (entries : List (List Nat × Submission))
    (hk : distinctTs entries = true)
    (hwf : entries.all (fun e => validStr e.1 && SubWF e.2) = true) :
    (∃ F, appendAll entries (some (dumpsWith (some 2) 0 (Json.obj []))) = some F ∧
        loads F = some (Json.obj (logOf entries))) ∧
      (entries ≠ [] →
        ∃ F, appendAll entries none = some F ∧
          loads F = some (Json.obj (logOf entries))) := by
  have hWFlog : WFj (Json.obj (logOf entries)) = true := by
    simp only [WFj, Bool.and_eq_true]
    exact ⟨WFm_logOf hwf, distinctKeys_logOf hk⟩
  have hfold : entries.foldl (fun acc e => objInsert e.1 (subToJson e.2) acc) []
      = logOf entries := by
    have h1 := foldl_objInsert_nil (distinctKeys_logOf hk)
    rw [logOf, List.foldl_map] at h1
    exact h1
  constructor
  · refine ⟨_, appendAll_inv entries [] (by simp [WFm]) (by simp [distinctKeys]) hwf, ?_⟩
    rw [hfold]
    exact loads_dumpsWith _ hWFlog _ _
  · intro hne
    cases entries with
    | nil => exact absurd rfl hne
    | cons e es =>
      obtain ⟨ts, sub⟩ := e
      simp only [List.all_cons, Bool.and_eq_true] at hwf
      have h1 : loads (encode sub) = some (subToJson sub) := decode_encode hwf.1.2
      have hfirst : (storage_handler ts (encode sub) none).file
          = some (dumpsWith (some 2) 0 (Json.obj [(ts, subToJson sub)])) := by
        simp [storage_handler, h1, objInsert]
      have hWF1 : WFm [(ts, subToJson sub)] = true := by
        simp only [WFm, Bool.and_eq_true]
        exact ⟨⟨hwf.1.1, WFj_subToJson hwf.1.2⟩, trivial⟩
      have hdk1 : distinctKeys [(ts, subToJson sub)] = true := by
        simp [distinctKeys]
      have hrest := appendAll_inv es [(ts, subToJson sub)] hWF1 hdk1 hwf.2
      refine ⟨dumpsWith (some 2) 0 (Json.obj (List.foldl
        (fun acc e => objInsert e.1 (subToJson e.2) acc) [(ts, subToJson sub)] es)),
        ?_, ?_⟩
      · show ((ts, sub) :: es).foldl
            (fun st e => (storage_handler e.1 (encode e.2) st).file) none = _
        rw [List.foldl_cons, hfirst]
        exact hrest
      · have : es.foldl (fun acc e => objInsert e.1 (subToJson e.2) acc)
            [(ts, subToJson sub)] = logOf ((ts, sub) :: es) := by
          rw [← hfold, List.foldl_cons]
          rfl
        rw [this]
        exact loads_dumpsWith _ hWFlog _ _

/-- C7 witness: two entries with distinct timestamps `t1`, `t2` appended
to the empty and to the absent log give a log holding exactly those two
entries. -/
theorem c7_witness :
    distinctTs [([116, 49], [([97], [98])]), ([116, 50], [([99], [100])])] = true ∧
      List.all [([116, 49], [([97], [98])]), ([116, 50], [([99], [100])])]
        (fun e => validStr e.1 && SubWF e.2) = true ∧
      ((∃ F, appendAll [([116, 49], [([97], [98])]), ([116, 50], [([99], [100])])]
            (some (dumpsWith (some 2) 0 (Json.obj []))) = some F ∧
          loads F = some (Json.obj
            (logOf [([116, 49], [([97], [98])]), ([116, 50], [([99], [100])])]))) ∧
        ([([116, 49], [([97], [98])]), ([116, 50], [([99], [100])])] ≠
            ([] : List (List Nat × Submission)) →
          ∃ F, appendAll [([116, 49], [([97], [98])]), ([116, 50], [([99], [100])])]
              none = some F ∧
            loads F = some (Json.obj
              (logOf [([116, 49], [([97], [98])]), ([116, 50], [([99], [100])])])))) :=
  ⟨by decide, by decide,
    c7_batch_append_exact [([116, 49], [([97], [98])]), ([116, 50], [([99], [100])])]
      (by decide) (by decide)⟩

/-- C8: appending an entry whose timestamp key already exists in the log
overwrites that key's value with the new Submission, and every other key's
value is unchanged: the storage step succeeds, rewrites the file, and the
rewritten log maps the key to the new value while agreeing with the old
log on all other keys. -/
theorem c8_existing_key_overwrites (d : List (List Nat × Json)) (k : List Nat)
    (sub : Submission) (hWF : WFm d = true) (hdk : distinctKeys d = true)
    (hmem : (objLookup k d).isSome = true) (hsub : SubWF sub = true) :
    (storage_handler k (encode sub) (some (dumpsWith (some 2) 0 (Json.obj d)))).err
        = false ∧
      ∃ F d2,
        (storage_handler k (encode sub)
            (some (dumpsWith (some 2) 0 (Json.obj d)))).file = some F ∧
        loads F = some (Json.obj d2) ∧
        objLookup k d2 = some (subToJson sub) ∧
        (∀ k2, k2 ≠ k → objLookup k2 d2 = objLookup k2 d) := by
  have hk : validStr k = true := validStr_of_lookup hWF hmem
  have hstep := storage_handler_step k hsub hWF hdk
  rw [hstep]
  refine ⟨rfl, _, objInsert k (subToJson sub) d, rfl, ?_, ?_, ?_⟩
  · exact loads_dumpsWith _ (by
      simp only [WFj, Bool.and_eq_true]
      exact ⟨WFm_objInsert hk (WFj_subToJson hsub) hWF, distinctKeys_objInsert hdk⟩) _ _
  · exact objLookup_objInsert_self k (subToJson sub) d
  · intro k2 hne
    exact objLookup_objInsert_other hne (subToJson sub) d

/-- C8 witness: overwriting the existing key `t` in the one-entry log
`{t: {a: b}}` with the Submission `{c: d}` while the other key `u` is
untouched. -/
theorem c8_witness :
    WFm [([116], Json.obj [([97], Json.str [98])]), ([117], Json.str [120])] = true ∧
      distinctKeys [([116], Json.obj [([97], Json.str [98])]),
        ([117], Json.str [120])] = true ∧
      (objLookup [116] [([116], Json.obj [([97], Json.str [98])]),
        ([117], Json.str [120])]).isSome = true ∧
      SubWF [([99], [100])] = true ∧
      ((storage_handler [116] (encode [([99], [100])])
          (some (dumpsWith (some 2) 0 (Json.obj [([116], Json.obj [([97], Json.str [98])]),
            ([117], Json.str [120])])))).err = false ∧
        ∃ F d2,
          (storage_handler [116] (encode [([99], [100])])
              (some (dumpsWith (some 2) 0
                (Json.obj [([116], Json.obj [([97], Json.str [98])]),
                  ([117], Json.str [120])])))).file = some F ∧
          loads F = some (Json.obj d2) ∧
          objLookup [116] d2 = some (subToJson [([99], [100])]) ∧
          (∀ k2, k2 ≠ [116] →
            objLookup k2 d2
              = objLookup k2 [([116], Json.obj [([97], Json.str [98])]),
                  ([117], Json.str [120])])) := by
  have hWF : WFm [([116], Json.obj [([97], Json.str [98])]), ([117], Json.str [120])]
      = true := by decide
  have hdk : distinctKeys [([116], Json.obj [([97], Json.str [98])]),
      ([117], Json.str [120])] = true := by decide
  have hmem : (objLookup [116] [([116], Json.obj [([97], Json.str [98])]),
      ([117], Json.str [120])]).isSome = true := by decide
  exact ⟨hWF, hdk, hmem, by decide,
    c8_existing_key_overwrites _ _ _ hWF hdk hmem (by decide)⟩

/-- C9 counterexample: the claim says that on an external interrupt the
coordinator sets the Cancellation Signal and then waits for **both** the
HTTP Listener unit and the Datagram Server unit to finish before reporting
"stopped".  In the interrupted run no completed join of the HTTP thread
occurs at all — the `except KeyboardInterrupt` handler (lines 285-287)
joins only `socket_thread`. -/
theorem c9_counterexample_http_not_joined :
    CoordAction.joinHttp ∉ coordinator true := by decide

/-- C9 as amended: on an external interrupt the coordinator sets the
Cancellation Signal, then waits only for the Datagram Server unit
(`socket_thread.join()`) before reporting "stopped"; the interrupted
`http_thread.join()` is not resumed and the HTTP unit is never joined
after the signal is set. -/
theorem c9_interrupt_joins_socket_only :
    coordinator true
        = [CoordAction.startHttp, CoordAction.startSocket,
            CoordAction.joinHttpInterrupted, CoordAction.setSignal,
            CoordAction.joinSocket, CoordAction.reportStopped] ∧
      interrupt_handler.indexOf CoordAction.setSignal
          < interrupt_handler.indexOf CoordAction.joinSocket ∧
      interrupt_handler.indexOf CoordAction.joinSocket
          < interrupt_handler.indexOf CoordAction.reportStopped ∧
      CoordAction.joinHttp ∉ interrupt_handler := by decide

/-- C10: a received datagram whose bytes are not valid JSON makes
`storage_handler` raise at `json.loads` (line 188) before any file access:
no file operation is performed, the error escapes, and the log file's
contents are exactly what they were before the call. -/
theorem c10_invalid_datagram_leaves_log_untouched (ts data : List Nat)
    (file : Option (List Nat)) (h : decode data = none) :
    (storage_handler ts data file).ops = [] ∧
      (storage_handler ts data file).err = true ∧
      (storage_handler ts data file).file = file := by
  rw [decode] at h
  refine ⟨?_, ?_, ?_⟩ <;> simp [storage_handler, h]

/-- C10 witness: the non-JSON datagram `no` leaves the concrete log file
`{}` untouched, with no file operation performed. -/
theorem c10_witness :
    decode [110, 111] = none ∧
      (storage_handler [116] [110, 111] (some [123, 125])).ops = [] ∧
      (storage_handler [116] [110, 111] (some [123, 125])).err = true ∧
      (storage_handler [116] [110, 111] (some [123, 125])).file = some [123, 125] :=
  ⟨rfl, c10_invalid_datagram_leaves_log_untouched [116] [110, 111] (some [123, 125]) rfl⟩

end App
